import Mathlib

/-!
Shallow embedding of the collaborative-editor engine in `src/CRDT2.cpp`.

Lines of text are modelled as `List Char` (one byte per `Char`; the program
handles raw bytes, ASCII in practice), documents as `List (List Char)`.
The ambient wall-clock time consumed by `time(nullptr)` is passed in as an
explicit parameter.  The C++ `int` column fields are modelled as `Int`; the
`line` field is modelled as `Nat` (the diff engine only ever produces
non-negative line indices, and a negative line index would make the merge
engine index its `vector` out of bounds, which is undefined behaviour).
-/

/-- `MERGE_THRESHOLD` (CRDT2.cpp:28). -/
def MERGE_THRESHOLD : Nat := 5

/-- `MAX_NOTIFICATIONS` (CRDT2.cpp:29). -/
def MAX_NOTIFICATIONS : Nat := 5

/-- `UpdateObject` (CRDT2.cpp:43-54).  The derived `timestamp` display string
(human-readable rendering of `ts`) carries no behaviour and is omitted. -/
structure UpdateObject where
  op_type : String
  line : Nat
  start_col : Int
  end_col : Int
  old_content : List Char
  new_content : List Char
  ts : Int
  user_id : List Char
deriving DecidableEq, Repr

/-- Sign of C `strcmp` on two NUL-free byte strings: negative, zero or positive
according to the first differing byte (a terminator compares below any byte). -/
def strcmpI : List Char → List Char → Int
  | [], [] => 0
  | [], _ :: _ => -1
  | _ :: _, [] => 1
  | a :: as, b :: bs => if a < b then -1 else if b < a then 1 else strcmpI as bs

/-- `ranges_overlap` (CRDT2.cpp:249-252). -/
def ranges_overlap (a1 b1 a2 b2 : Int) : Bool :=
  !(decide (b1 ≤ a2) || decide (b2 ≤ a1))

/-- The conflict test of the elimination loop (CRDT2.cpp:289-290):
same line and overlapping column ranges. -/
def conflicts (x y : UpdateObject) : Bool :=
  x.line == y.line && ranges_overlap x.start_col x.end_col y.start_col y.end_col

/-- Inner loop of the pairwise elimination (CRDT2.cpp:286-310): op `oi` is
compared against every still-kept later op; returns whether `oi` itself is
still kept afterwards, together with the updated `(op, keep)` tail.
`keep[i] = false` plus `break` in the source becomes returning `false`
with the tail unchanged from that point on. -/
def elimInner (oi : UpdateObject) : List (UpdateObject × Bool) → Bool × List (UpdateObject × Bool)
  | [] => (true, [])
  | (oj, kj) :: tl =>
    if kj = false then
      let r := elimInner oi tl
      (r.1, (oj, kj) :: r.2)
    else if conflicts oi oj then
      if oj.ts < oi.ts then
        let r := elimInner oi tl
        (r.1, (oj, false) :: r.2)
      else if oi.ts < oj.ts then
        (false, (oj, kj) :: tl)
      else if strcmpI oi.user_id oj.user_id ≤ 0 then
        let r := elimInner oi tl
        (r.1, (oj, false) :: r.2)
      else
        (false, (oj, kj) :: tl)
    else
      let r := elimInner oi tl
      (r.1, (oj, kj) :: r.2)

/-- Outer loop of the pairwise elimination (CRDT2.cpp:283-311), fuelled by the
list length (each step consumes exactly one list element and `elimInner`
preserves the length of the remainder, so the fuel is always sufficient). -/
def elimOuterFuel : Nat → List (UpdateObject × Bool) → List (UpdateObject × Bool)
  | 0, l => l
  | _ + 1, [] => []
  | fuel + 1, (oi, ki) :: rest =>
    if ki then
      let r := elimInner oi rest
      (oi, r.1) :: elimOuterFuel fuel r.2
    else
      (oi, ki) :: elimOuterFuel fuel rest

/-- The complete conflict-resolution pass: ops that survive the pairwise
elimination, in batch order (CRDT2.cpp:280-311 plus the `keep[i]` filter
of CRDT2.cpp:313-316). -/
def surviving (all : List UpdateObject) : List UpdateObject :=
  ((elimOuterFuel all.length (all.map (fun u => (u, true)))).filter
    (fun p => p.2)).map (fun p => p.1)

/-- One replacement applied to a line (loop body, CRDT2.cpp:326-334):
clamp the columns into the line's bounds, then splice `new_content` in. -/
def applyOne (base : List Char) (op : UpdateObject) : List Char :=
  let sc : Int := if (base.length : Int) < max 0 op.start_col then (base.length : Int)
                  else max 0 op.start_col
  let ec : Int := if (base.length : Int) < max 0 op.end_col then (base.length : Int)
                  else max 0 op.end_col
  base.take sc.toNat ++ op.new_content ++ base.drop ec.toNat

/-- `std::string::substr(pos)` as used at CRDT2.cpp:333: defined exactly for
`0 ≤ pos ≤ size` (outside that range the C++ call throws `out_of_range`,
the negative case via the wrap-around of the `size_t` conversion). -/
def substrFrom (s : List Char) (pos : Int) : Option (List Char) :=
  if 0 ≤ pos ∧ pos ≤ (s.length : Int) then some (s.drop pos.toNat) else none

/-- `applyOne` with the partiality of the underlying string indexing made
explicit: `none` marks an out-of-range access that would throw in C++.
`substr(0, sc)` on the left is total (position `0`, count clamped by the
library); the right side is the guarded `substr(ec)` of CRDT2.cpp:333. -/
def applyOneChecked (base : List Char) (op : UpdateObject) : Option (List Char) :=
  let sc : Int := if (base.length : Int) < max 0 op.start_col then (base.length : Int)
                  else max 0 op.start_col
  let ec : Int := if (base.length : Int) < max 0 op.end_col then (base.length : Int)
                  else max 0 op.end_col
  (if ec < (base.length : Int) then substrFrom base ec else some []).map
    (fun right => base.take sc.toNat ++ op.new_content ++ right)

/-- Insertion step of the descending-`start_col` sort (comparator at
CRDT2.cpp:322-323; `std::sort` leaves the relative order of equal keys
unspecified, so any order consistent with the comparator is a faithful
model — this one is stable). -/
def insertDesc (op : UpdateObject) : List UpdateObject → List UpdateObject
  | [] => [op]
  | x :: xs => if x.start_col < op.start_col then op :: x :: xs else x :: insertDesc op xs

/-- Sort a line's group by descending `start_col` (CRDT2.cpp:322-323). -/
def sortByStartDesc (l : List UpdateObject) : List UpdateObject :=
  l.foldr insertDesc []

/-- Replay one line's group onto the line's original content
(CRDT2.cpp:325-336): rightmost edit first. -/
def applyLine (ops : List UpdateObject) (base : List Char) : List Char :=
  (sortByStartDesc ops).foldl applyOne base

/-- `max_line` computation (CRDT2.cpp:273-276).  The source starts from `-1`;
since every line index is a `Nat` and the merge engine only uses `max_line`
on a non-empty batch, folding `max` from `0` agrees with the source. -/
def maxLine (all : List UpdateObject) : Nat :=
  all.foldl (fun m u => max m u.line) 0

/-- Grouping by line and per-line replay (CRDT2.cpp:313-337).  The C++
`unordered_map` iteration order is unspecified; distinct lines are written
independently so any order yields the same document — the embedding fixes
the order `(surv.map line).dedup`. -/
def replay (surv : List UpdateObject) (doc : List (List Char)) : List (List Char) :=
  ((surv.map (fun u => u.line)).dedup).foldl
    (fun d ℓ => d.set ℓ (applyLine (surv.filter (fun u => u.line == ℓ)) (d.getD ℓ [])))
    doc

/-- Pure document transformation of `merge_and_apply` (CRDT2.cpp:254-339):
the combined batch `all` is `local_ops ++ recv buffer`; on an empty batch the
document is untouched, otherwise it is padded with empty lines up to the
maximum referenced line index, conflicts are resolved, survivors replayed. -/
def merge_and_apply_doc (all : List UpdateObject) (doc : List (List Char)) : List (List Char) :=
  if all.isEmpty then doc
  else
    replay (surviving all) (doc ++ List.replicate (maxLine all + 1 - doc.length) [])

/-- Result of one `merge_and_apply` call together with its document-file I/O:
the source reads the file unconditionally (CRDT2.cpp:257) and writes it back
only after a non-empty merge (CRDT2.cpp:270-271, 339). -/
structure MergeOutcome where
  doc : List (List Char)
  readDocFile : Bool
  wroteDocFile : Bool
deriving DecidableEq, Repr

/-- `merge_and_apply` (CRDT2.cpp:254-347): combines `local_ops` with the
drained receive buffer and tracks document-file reads/writes. -/
def merge_and_apply (local_ops recvBuf : List UpdateObject) (doc : List (List Char)) :
    MergeOutcome :=
  let all := local_ops ++ recvBuf
  if all.isEmpty then ⟨doc, true, false⟩
  else ⟨merge_and_apply_doc all doc, true, true⟩

/-- The merge-trigger condition of `try_merge_if_needed` (CRDT2.cpp:356-358):
merge iff the buffered totals reach `MERGE_THRESHOLD`. -/
def should_merge (localCount remoteCount incomingCount : Nat) : Bool :=
  decide (MERGE_THRESHOLD ≤ remoteCount + localCount + incomingCount)

/-- `try_merge_if_needed` (CRDT2.cpp:350-368) over explicit buffer state:
returns the new `(local buffer, recv buffer, document)`.  On trigger, the
local buffer is cleared and `merge_and_apply` consumes
`incoming ++ local buffer` plus the drained recv buffer. -/
def try_merge_if_needed (incoming localBuf recvBuf : List UpdateObject)
    (doc : List (List Char)) :
    List UpdateObject × List UpdateObject × List (List Char) :=
  if should_merge localBuf.length recvBuf.length incoming.length then
    ([], [], (merge_and_apply (incoming ++ localBuf) recvBuf doc).doc)
  else
    (localBuf, recvBuf, doc)

/-! ### Diff engine (`detect_changes`, CRDT2.cpp:416-486) -/

/-- Longest common prefix length: the `start_col` loop of CRDT2.cpp:428-430. -/
def lcp : List Char → List Char → Nat
  | a :: as, b :: bs => if a = b then lcp as bs + 1 else 0
  | _, _ => 0

/-- The common-suffix trimming loop of CRDT2.cpp:432-438: number of matching
trailing characters of the two lines, never reaching below column `p`. -/
def suffixTrim (p : Nat) (a b : List Char) : Nat :=
  lcp (a.drop p).reverse (b.drop p).reverse

/-- `old_end` after suffix trimming (CRDT2.cpp:432-438). -/
def oldEnd (a b : List Char) : Nat :=
  a.length - suffixTrim (lcp a b) a b

/-- `new_end` after suffix trimming (CRDT2.cpp:432-438). -/
def newEnd (a b : List Char) : Nat :=
  b.length - suffixTrim (lcp a b) a b

/-- `old_part` (CRDT2.cpp:440). -/
def oldPart (a b : List Char) : List Char :=
  if lcp a b < oldEnd a b then (a.take (oldEnd a b)).drop (lcp a b) else []

/-- `new_part` (CRDT2.cpp:441). -/
def newPart (a b : List Char) : List Char :=
  if lcp a b < newEnd a b then (b.take (newEnd a b)).drop (lcp a b) else []

/-- Per-line body of `detect_changes` (CRDT2.cpp:424-455): `none` when the
line is skipped, otherwise the emitted operation.  `strncpy` into the
256-byte text buffers truncates the snippets to 255 bytes
(CRDT2.cpp:449-450), and `strncpy` into the 32-byte `user_id` field
truncates the author id to 31 bytes (CRDT2.cpp:451). -/
def mkUpdate (i : Nat) (a b : List Char) (u : List Char) (t : Int) : Option UpdateObject :=
  if a = b then none
  else if oldPart a b = newPart a b then none
  else some
    { op_type := "replace"
      line := i
      start_col := (lcp a b : Int)
      end_col := (max (oldEnd a b) (newEnd a b) : Int)
      old_content := (oldPart a b).take 255
      new_content := (newPart a b).take 255
      ts := t
      user_id := u.take 31 }

/-- `detect_changes` (CRDT2.cpp:416-486), restricted to the operations it
emits (the broadcast / buffering side effects are external to the diff):
one pass over line indices up to the longer document, missing lines read
as empty. -/
def detect_changes (old new : List (List Char)) (u : List Char) (t : Int) :
    List UpdateObject :=
  (List.range (max old.length new.length)).filterMap
    (fun i => mkUpdate i (old.getD i []) (new.getD i []) u t)

/-! ### Snapshot store (copy-on-write buffers)

The C++ globals `recv_ptr`, `local_ptr`, `recent_ptr` are `shared_ptr`
snapshots replaced wholesale on every append.  To state that an append never
mutates a previously captured snapshot, the store is modelled with explicit
addresses: `cells` is the heap of all snapshot versions ever published,
`cur` the address of the currently published one.  A reader captures the
address `cur`; the appenders allocate a fresh cell and republish. -/

structure CowStore (α : Type) where
  cells : List (List α)
  cur : Nat

/-- Capture the currently published snapshot (acquire-fenced load of the
pointer, e.g. CRDT2.cpp:388-389). -/
def readSnap {α : Type} (s : CowStore α) : Nat := s.cur

/-- Contents of the snapshot at address `a`. -/
def deref {α : Type} (s : CowStore α) (a : Nat) : List α := s.cells.getD a []

/-- Clone-push_back-publish, the append used for both operation buffers
(listener thread, CRDT2.cpp:388-393, and local-change detection,
CRDT2.cpp:461-466). -/
def cow_append {α : Type} (s : CowStore α) (x : α) : CowStore α :=
  let next := deref s s.cur ++ [x]
  { cells := s.cells ++ [next], cur := s.cells.length }

/-- `append_recent_notification` (CRDT2.cpp:75-87): clone, push_back, drop the
oldest entry when the bound is exceeded, publish. -/
def append_recent_notification (s : CowStore String) (msg : String) : CowStore String :=
  let next := deref s s.cur ++ [msg]
  let next := if MAX_NOTIFICATIONS < next.length then next.drop 1 else next
  { cells := s.cells ++ [next], cur := s.cells.length }

/-! ### Helper lemmas -/

theorem elimInner_length (oi : UpdateObject) :
    ∀ l : List (UpdateObject × Bool), (elimInner oi l).2.length = l.length := by
  intro l
  induction l with
  | nil => rfl
  | cons hd tl ih =>
    obtain ⟨oj, kj⟩ := hd
    simp only [elimInner]
    split
    · simp [ih]
    · split
      · split
        · simp [ih]
        · split
          · simp
          · split
            · simp [ih]
            · simp
      · simp [ih]

theorem getD_append_lt {α : Type} (d : α) :
    ∀ (l l' : List α) (i : Nat), i < l.length → (l ++ l').getD i d = l.getD i d := by
  intro l
  induction l with
  | nil => intro l' i h; simp at h
  | cons x xs ih =>
    intro l' i h
    cases i with
    | zero => rfl
    | succ n => simpa using ih l' n (by simpa using h)

theorem getD_concat_self {α : Type} (d : α) :
    ∀ (l : List α) (v : α), (l ++ [v]).getD l.length d = v := by
  intro l
  induction l with
  | nil => intro v; rfl
  | cons x xs ih => intro v; simp [ih v]

theorem getD_set_self {α : Type} (d : α) :
    ∀ (l : List α) (i : Nat) (v : α), i < l.length → (l.set i v).getD i d = v := by
  intro l
  induction l with
  | nil => intro i v h; simp at h
  | cons x xs ih =>
    intro i v h
    cases i with
    | zero => rfl
    | succ n => simpa using ih n v (by simpa using h)

theorem getD_set_ne {α : Type} (d : α) :
    ∀ (l : List α) (i j : Nat) (v : α), i ≠ j → (l.set j v).getD i d = l.getD i d := by
  intro l
  induction l with
  | nil => intro i j v _; simp [List.set]
  | cons x xs ih =>
    intro i j v h
    cases j with
    | zero => cases i with
      | zero => exact absurd rfl h
      | succ m => rfl
    | succ n => cases i with
      | zero => rfl
      | succ m => simpa using ih m n v (by omega)


theorem clampInt_toNat (c : Int) (n : Nat) :
    (if (n : Int) < max 0 c then (n : Int) else max 0 c).toNat = min c.toNat n := by
  split <;> omega

theorem applyOne_eq (base : List Char) (op : UpdateObject) :
    applyOne base op =
      base.take (min op.start_col.toNat base.length) ++ op.new_content ++
        base.drop (min op.end_col.toNat base.length) := by
  simp only [applyOne, clampInt_toNat]

theorem applyOneChecked_eq (base : List Char) (op : UpdateObject) :
    applyOneChecked base op = some (applyOne base op) := by
  simp only [applyOneChecked, applyOne, substrFrom]
  set e : Int := if (base.length : Int) < max 0 op.end_col then (base.length : Int)
    else max 0 op.end_col with he
  have h0 : 0 ≤ e := by rw [he]; split <;> omega
  have hle : e ≤ (base.length : Int) := by rw [he]; split <;> omega
  have hin : 0 ≤ e ∧ e ≤ (base.length : Int) := ⟨h0, hle⟩
  by_cases hcase : e < (base.length : Int)
  · rw [if_pos hcase, if_pos hin, Option.map_some']
  · rw [if_neg hcase, Option.map_some']
    have hdrop : base.drop e.toNat = [] := by
      apply List.drop_eq_nil_of_le
      omega
    rw [hdrop]

/-! ### Claims -/

/-- C2: the claim says merge output is invariant under any permutation of the
batch.  The code's pairwise elimination is order-dependent: for the batch
`[A, B, C]` below (same line, chained overlapping ranges `[0,2)`, `[1,3)`,
`[2,4)`, timestamps 3 > 2 > 1), scanning `[A, B, C]` lets `A` kill `B`
before `B` can kill `C` (survivors `{A, C}`), while the reversed batch lets
`B` kill `C` first... in fact scanning `[C, B, A]`, `B` kills `C` and `A`
kills `B`, leaving `{A}` only — the two permutations replay to different
documents on `"abcd"`. -/
theorem C2_merge_not_permutation_invariant :
    merge_and_apply_doc
        [⟨"replace", 0, 0, 2, [], ['A', 'A'], 3, ['a']⟩,
         ⟨"replace", 0, 1, 3, [], ['B', 'B'], 2, ['b']⟩,
         ⟨"replace", 0, 2, 4, [], ['C', 'C'], 1, ['c']⟩] [['a', 'b', 'c', 'd']] ≠
      merge_and_apply_doc
        (List.reverse
          [⟨"replace", 0, 0, 2, [], ['A', 'A'], 3, ['a']⟩,
           ⟨"replace", 0, 1, 3, [], ['B', 'B'], 2, ['b']⟩,
           ⟨"replace", 0, 2, 4, [], ['C', 'C'], 1, ['c']⟩]) [['a', 'b', 'c', 'd']] := by
  decide

/-- C5 (amended): merging an empty batch leaves the document untouched,
bit-for-bit, and performs no write of the document file.  (The document file
is still read once: see `C5_empty_merge_reads_file`.) -/
theorem C5_empty_merge_no_op (doc : List (List Char)) :
    (merge_and_apply [] [] doc).doc = doc ∧
      (merge_and_apply [] [] doc).wroteDocFile = false := by
  constructor <;> rfl

/-- C5 counterexample to the claim as stated: the claim asserts that no file
I/O at all (neither read nor write) happens on an empty batch, but
`merge_and_apply` reads the document file (CRDT2.cpp:257) before it checks
for emptiness (CRDT2.cpp:270). -/
theorem C5_empty_merge_reads_file :
    (merge_and_apply [] [] [['a']]).readDocFile = true := by
  rfl

/-- C6: the merge trigger fires exactly when the sum of the local buffered
count, the remote buffered count and the incoming-batch count reaches the
threshold 5, and stays quiet for sums of 4 and below. -/
theorem C6_threshold_trigger (localCount remoteCount incomingCount : Nat) :
    (should_merge localCount remoteCount incomingCount = true ↔
        5 ≤ localCount + remoteCount + incomingCount) ∧
      (should_merge localCount remoteCount incomingCount = false ↔
        localCount + remoteCount + incomingCount ≤ 4) := by
  constructor <;> simp [should_merge, MERGE_THRESHOLD] <;> omega

/-- C7: for every operation and every current line content, the replayed
columns are first clamped into the line's bounds — the checked semantics
(in which any out-of-range string index is an error) never fails and agrees
with the total splice, whose indices provably lie within the line. -/
theorem C7_replay_clamps_columns (op : UpdateObject) (base : List Char) :
    applyOneChecked base op = some (applyOne base op) ∧
      applyOne base op =
        base.take (min op.start_col.toNat base.length) ++ op.new_content ++
          base.drop (min op.end_col.toNat base.length) ∧
      min op.start_col.toNat base.length ≤ base.length ∧
      min op.end_col.toNat base.length ≤ base.length :=
  ⟨applyOneChecked_eq base op, applyOne_eq base op,
    Nat.min_le_right _ _, Nat.min_le_right _ _⟩

/-- C9: for each copy-on-write buffer (the operation buffers use `cow_append`,
the notification ring uses `append_recent_notification`), appending never
mutates a snapshot captured earlier — the captured address still dereferences
to its old contents, so it cannot have acquired the appended item — while a
fresh read of the published snapshot does contain the appended item. -/
theorem C9_snapshot_isolation {α : Type} (s : CowStore α) (x : α)
    (s2 : CowStore String) (msg : String) (a a2 : Nat)
    (_hA : a = readSnap s) (hAlt : a < s.cells.length)
    (_hB : a2 = readSnap s2) (hBlt : a2 < s2.cells.length) :
    deref (cow_append s x) a = deref s a ∧
      (x ∉ deref s a → x ∉ deref (cow_append s x) a) ∧
      x ∈ deref (cow_append s x) (readSnap (cow_append s x)) ∧
      deref (append_recent_notification s2 msg) a2 = deref s2 a2 ∧
      (msg ∉ deref s2 a2 → msg ∉ deref (append_recent_notification s2 msg) a2) ∧
      msg ∈ deref (append_recent_notification s2 msg)
        (readSnap (append_recent_notification s2 msg)) := by
  have h1 : deref (cow_append s x) a = deref s a := by
    simp only [cow_append, deref]
    exact getD_append_lt [] s.cells _ a hAlt
  have h2 : deref (append_recent_notification s2 msg) a2 = deref s2 a2 := by
    simp only [append_recent_notification, deref]
    exact getD_append_lt [] s2.cells _ a2 hBlt
  refine ⟨h1, fun hx => by rw [h1]; exact hx, ?_, h2, fun hm => by rw [h2]; exact hm, ?_⟩
  · simp only [cow_append, deref, readSnap]
    rw [getD_concat_self]
    simp
  · simp only [append_recent_notification, deref, readSnap]
    rw [getD_concat_self]
    split
    · rename_i hlen
      rw [List.drop_append_eq_append_drop]
      have hlen1 : 1 - (s2.cells.getD s2.cur []).length = 0 := by
        simp only [List.length_append, List.length_cons, List.length_nil,
          MAX_NOTIFICATIONS] at hlen
        omega
      rw [hlen1]
      simp
    · simp

/-- C9 witness: a store holding one published empty snapshot, a reader that
captured it, and a concurrent append of `7` (operation buffer) and of `"n"`
(notification ring). -/
theorem C9_snapshot_isolation_witness :
    (7 : Nat) ∈ deref (cow_append (⟨[[]], 0⟩ : CowStore Nat) 7)
        (readSnap (cow_append (⟨[[]], 0⟩ : CowStore Nat) 7)) ∧
      deref (cow_append (⟨[[]], 0⟩ : CowStore Nat) 7) 0 =
        deref (⟨[[]], 0⟩ : CowStore Nat) 0 :=
  ⟨(C9_snapshot_isolation (⟨[[]], 0⟩ : CowStore Nat) 7 (⟨[[]], 0⟩ : CowStore String) "n"
      0 0 rfl (by decide) rfl (by decide)).2.2.1,
   (C9_snapshot_isolation (⟨[[]], 0⟩ : CowStore Nat) 7 (⟨[[]], 0⟩ : CowStore String) "n"
      0 0 rfl (by decide) rfl (by decide)).1⟩

theorem strcmpI_neg : ∀ a b : List Char, strcmpI a b = -strcmpI b a := by
  intro a
  induction a with
  | nil => intro b; cases b <;> simp [strcmpI]
  | cons x xs ih =>
    intro b
    cases b with
    | nil => simp [strcmpI]
    | cons y ys =>
      simp only [strcmpI]
      rcases lt_trichotomy x y with h | h | h
      · simp [h, lt_asymm h]
      · subst h
        simp [lt_irrefl, ih ys]
      · simp [h, lt_asymm h]

theorem conflicts_comm (x y : UpdateObject) : conflicts x y = conflicts y x := by
  simp only [conflicts, ranges_overlap]
  by_cases h : x.line = y.line
  · rw [h, Bool.or_comm]
  · have h2 : ¬(y.line = x.line) := fun hh => h hh.symm
    have hb : (x.line == y.line) = false := by simp [h]
    have hb2 : (y.line == x.line) = false := by simp [h2]
    rw [hb, hb2]
    simp

theorem conflicts_line_eq {x y : UpdateObject} (h : conflicts x y = true) :
    x.line = y.line := by
  simp only [conflicts, Bool.and_eq_true, beq_iff_eq] at h
  exact h.1

/-- C1: among two operations on the same line with overlapping column ranges,
last-writer-wins: the one with the larger `logical_time` (`ts`) survives the
conflict-resolution pass — in either batch order — and the merged document is
exactly the document merged with the winner alone; on an exact `ts` tie, the
operation whose origin identifier is byte-wise smaller survives. -/
theorem C1_lww_conflict_resolution (A B : UpdateObject) (doc : List (List Char))
    (hconf : conflicts A B = true) :
    (A.ts < B.ts →
      surviving [A, B] = [B] ∧ surviving [B, A] = [B] ∧
        merge_and_apply_doc [A, B] doc = merge_and_apply_doc [B] doc) ∧
    (A.ts = B.ts → strcmpI A.user_id B.user_id < 0 →
      surviving [A, B] = [A] ∧ surviving [B, A] = [A] ∧
        merge_and_apply_doc [A, B] doc = merge_and_apply_doc [A] doc) := by
  have hconf2 : conflicts B A = true := by rw [conflicts_comm]; exact hconf
  have hline : A.line = B.line := conflicts_line_eq hconf
  constructor
  · intro hts
    have h1 : ¬(B.ts < A.ts) := by omega
    have hAB : surviving [A, B] = [B] := by
      simp [surviving, elimOuterFuel, elimInner, hconf, h1, hts]
    have hBA : surviving [B, A] = [B] := by
      simp [surviving, elimOuterFuel, elimInner, hconf2, h1, hts]
    have hB : surviving [B] = [B] := by
      simp [surviving, elimOuterFuel, elimInner]
    have hmax : maxLine [A, B] = maxLine [B] := by
      simp [maxLine, hline]
    refine ⟨hAB, hBA, ?_⟩
    simp [merge_and_apply_doc, hAB, hB, hmax]
  · intro hts hid
    have h1 : ¬(B.ts < A.ts) := by omega
    have h2 : ¬(A.ts < B.ts) := by omega
    have h3 : strcmpI A.user_id B.user_id ≤ 0 := le_of_lt hid
    have h4 : ¬(strcmpI B.user_id A.user_id ≤ 0) := by
      rw [strcmpI_neg]
      omega
    have hAB : surviving [A, B] = [A] := by
      simp [surviving, elimOuterFuel, elimInner, hconf, h1, h2, h3]
    have hBA : surviving [B, A] = [A] := by
      simp [surviving, elimOuterFuel, elimInner, hconf2, h1, h2, h4]
    have hA : surviving [A] = [A] := by
      simp [surviving, elimOuterFuel, elimInner]
    have hmax : maxLine [A, B] = maxLine [A] := by
      simp [maxLine, hline]
    refine ⟨hAB, hBA, ?_⟩
    simp [merge_and_apply_doc, hAB, hA, hmax]

/-- C1 witness: a fresh-timestamp pair (1 < 2, overlapping `[0,2)`/`[1,3)` on
line 0) resolved for the later writer, and an equal-timestamp pair resolved
for the byte-wise smaller origin `"a" < "b"`. -/
theorem C1_lww_conflict_resolution_witness :
    surviving [⟨"replace", 0, 0, 2, [], ['N'], 1, ['a']⟩,
               ⟨"replace", 0, 1, 3, [], ['M'], 2, ['b']⟩] =
        [⟨"replace", 0, 1, 3, [], ['M'], 2, ['b']⟩] ∧
      surviving [⟨"replace", 0, 0, 2, [], ['N'], 5, ['a']⟩,
                 ⟨"replace", 0, 1, 3, [], ['M'], 5, ['b']⟩] =
        [⟨"replace", 0, 0, 2, [], ['N'], 5, ['a']⟩] :=
  ⟨((C1_lww_conflict_resolution ⟨"replace", 0, 0, 2, [], ['N'], 1, ['a']⟩
      ⟨"replace", 0, 1, 3, [], ['M'], 2, ['b']⟩ [] (by decide)).1 (by decide)).1,
   ((C1_lww_conflict_resolution ⟨"replace", 0, 0, 2, [], ['N'], 5, ['a']⟩
      ⟨"replace", 0, 1, 3, [], ['M'], 5, ['b']⟩ [] (by decide)).2 rfl (by decide)).1⟩

theorem foldl_set_length {α : Type} (F : Nat → List α → α) :
    ∀ (L : List Nat) (d : List α),
      (L.foldl (fun d ℓ => d.set ℓ (F ℓ d)) d).length = d.length := by
  intro L
  induction L with
  | nil => intro d; rfl
  | cons ℓ tl ih => intro d; simp [List.foldl_cons, ih, List.length_set]

theorem foldl_set_getD_of_not_mem {α : Type} (dflt : α) (F : Nat → List α → α) :
    ∀ (L : List Nat) (d : List α) (i : Nat), i ∉ L →
      (L.foldl (fun d ℓ => d.set ℓ (F ℓ d)) d).getD i dflt = d.getD i dflt := by
  intro L
  induction L with
  | nil => intro d i _; rfl
  | cons ℓ tl ih =>
    intro d i hi
    rw [List.mem_cons, not_or] at hi
    simp only [List.foldl_cons]
    rw [ih _ i hi.2, getD_set_ne dflt d i ℓ _ hi.1]

theorem replay_length (surv : List UpdateObject) (doc : List (List Char)) :
    (replay surv doc).length = doc.length := by
  unfold replay
  exact foldl_set_length _ _ _

theorem merge_and_apply_doc_length (all : List UpdateObject) (doc : List (List Char))
    (h : all ≠ []) :
    (merge_and_apply_doc all doc).length = max doc.length (maxLine all + 1) := by
  have hne : all.isEmpty = false := by
    cases all with
    | nil => exact absurd rfl h
    | cons a l => rfl
  rw [merge_and_apply_doc, hne]
  simp only [Bool.false_eq_true, if_false]
  rw [replay_length]
  simp only [List.length_append, List.length_replicate]
  omega

theorem applyOne_decomp (x y z : List Char) (op : UpdateObject)
    (h1 : op.start_col = (x.length : Int))
    (h2 : op.end_col = ((x.length + y.length : Nat) : Int)) :
    applyOne (x ++ y ++ z) op = x ++ op.new_content ++ z := by
  rw [applyOne_eq]
  have hl : (x ++ y ++ z).length = x.length + y.length + z.length := by
    simp [Nat.add_assoc]
  have hsc : min op.start_col.toNat (x ++ y ++ z).length = x.length := by
    rw [h1, hl]; omega
  have hec : min op.end_col.toNat (x ++ y ++ z).length = x.length + y.length := by
    rw [h2, hl]; omega
  have t1 : (x ++ y ++ z).take x.length = x := by
    rw [List.append_assoc]
    exact List.take_left x (y ++ z)
  have t2 : (x ++ y ++ z).drop (x.length + y.length) = z := by
    rw [show x.length + y.length = (x ++ y).length by simp]
    exact List.drop_left (x ++ y) z
  rw [hsc, hec, t1, t2]

/-- C4: during a non-empty merge the document is first extended with empty
lines up to the maximum referenced line index (first conjunct: the resulting
length is exactly `max` of the old length and `maxLine + 1`); surviving
operations are grouped by line and applied rightmost-first against the
line's original content, so two surviving disjoint edits of the same line
(here with `A` covering `[|p|, |p|+|q|)` and `B` covering the later range
`[|p|+|q|+|r|, ...+|s|)` of the original line `p++q++r++s++t`) both take
effect at their stated column positions. -/
theorem C4_descending_replay :
    (∀ (all : List UpdateObject) (doc : List (List Char)), all ≠ [] →
        (merge_and_apply_doc all doc).length = max doc.length (maxLine all + 1)) ∧
    (∀ (A B : UpdateObject) (doc : List (List Char)) (ℓ : Nat) (p q r s t : List Char),
        A.line = ℓ → B.line = ℓ → ℓ < doc.length →
        doc.getD ℓ [] = p ++ q ++ r ++ s ++ t →
        A.start_col = (p.length : Int) →
        A.end_col = ((p.length + q.length : Nat) : Int) →
        B.start_col = ((p.length + q.length + r.length : Nat) : Int) →
        B.end_col = ((p.length + q.length + r.length + s.length : Nat) : Int) →
        (merge_and_apply_doc [A, B] doc).getD ℓ [] =
          p ++ A.new_content ++ r ++ B.new_content ++ t) := by
  constructor
  · exact merge_and_apply_doc_length
  · intro A B doc ℓ p q r s t hAl hBl hℓ hdoc hAs hAe hBs hBe
    have hle : A.end_col ≤ B.start_col := by rw [hAe, hBs]; exact_mod_cast by omega
    have hcf : conflicts A B = false := by
      simp [conflicts, ranges_overlap, hle]
    have hsurv : surviving [A, B] = [A, B] := by
      simp [surviving, elimOuterFuel, elimInner, hcf]
    have hnb : ¬(B.start_col < A.start_col) := by
      rw [hAs, hBs]
      omega
    have hsort : sortByStartDesc [A, B] = [B, A] := by
      simp [sortByStartDesc, insertDesc, hnb]
    have hmerge : merge_and_apply_doc [A, B] doc =
        replay [A, B] (doc ++ List.replicate (maxLine [A, B] + 1 - doc.length) []) := by
      simp [merge_and_apply_doc, hsurv]
    set doc1 := doc ++ List.replicate (maxLine [A, B] + 1 - doc.length) [] with hdoc1def
    have hlines : (([A, B].map (fun u => u.line)).dedup) = [ℓ] := by
      simp [hAl, hBl, List.dedup_cons_of_mem]
    have hfilter : [A, B].filter (fun u => u.line == ℓ) = [A, B] := by
      simp [hAl, hBl]
    have hreplay : replay [A, B] doc1 =
        doc1.set ℓ (applyLine [A, B] (doc1.getD ℓ [])) := by
      unfold replay
      rw [hlines]
      simp only [List.foldl_cons, List.foldl_nil]
      rw [hfilter]
    have hdoc1get : doc1.getD ℓ [] = p ++ q ++ r ++ s ++ t := by
      rw [hdoc1def, getD_append_lt [] doc _ ℓ hℓ]
      exact hdoc
    have happB : applyOne (p ++ q ++ r ++ s ++ t) B =
        p ++ q ++ r ++ B.new_content ++ t := by
      apply applyOne_decomp (p ++ q ++ r) s t B
      · rw [hBs]
        congr 1
        simp [Nat.add_assoc]
      · rw [hBe]
        congr 1
        simp [Nat.add_assoc]
    have happA : applyOne (p ++ q ++ r ++ B.new_content ++ t) A =
        p ++ A.new_content ++ (r ++ B.new_content ++ t) := by
      have hassoc : p ++ q ++ r ++ B.new_content ++ t =
          p ++ q ++ (r ++ B.new_content ++ t) := by
        simp [List.append_assoc]
      rw [hassoc]
      apply applyOne_decomp p q (r ++ B.new_content ++ t) A
      · exact hAs
      · exact hAe
    have happLine : applyLine [A, B] (p ++ q ++ r ++ s ++ t) =
        p ++ A.new_content ++ (r ++ B.new_content ++ t) := by
      unfold applyLine
      rw [hsort]
      simp only [List.foldl_cons, List.foldl_nil]
      rw [happB, happA]
    have hlen1 : ℓ < doc1.length := by
      rw [hdoc1def]
      simp only [List.length_append, List.length_replicate]
      omega
    rw [hmerge, hreplay, hdoc1get, happLine, getD_set_self [] doc1 ℓ _ hlen1]
    simp [List.append_assoc]

/-- C4 witness: merging the disjoint same-line edits `[2,4) ↦ "XY"` and
`[6,8) ↦ "Z"` of line 0 `"abcdefghij"` (decomposition `"ab"/"cd"/"ef"/"gh"/"ij"`)
yields `"abXYefZij"`, and the merged document of the singleton-line document
keeps length 1. -/
theorem C4_descending_replay_witness :
    (merge_and_apply_doc
        [⟨"replace", 0, 2, 4, [], ['X', 'Y'], 1, ['a']⟩,
         ⟨"replace", 0, 6, 8, [], ['Z'], 1, ['b']⟩]
        [['a', 'b', 'c', 'd', 'e', 'f', 'g', 'h', 'i', 'j']]).getD 0 [] =
      ['a', 'b'] ++ ['X', 'Y'] ++ ['e', 'f'] ++ ['Z'] ++ ['i', 'j'] ∧
      (merge_and_apply_doc
        [⟨"replace", 0, 2, 4, [], ['X', 'Y'], 1, ['a']⟩,
         ⟨"replace", 0, 6, 8, [], ['Z'], 1, ['b']⟩]
        [['a', 'b', 'c', 'd', 'e', 'f', 'g', 'h', 'i', 'j']]).length =
        max 1 (maxLine [⟨"replace", 0, 2, 4, [], ['X', 'Y'], 1, ['a']⟩,
          ⟨"replace", 0, 6, 8, [], ['Z'], 1, ['b']⟩] + 1) :=
  ⟨by
    have h := C4_descending_replay.2
      ⟨"replace", 0, 2, 4, [], ['X', 'Y'], 1, ['a']⟩
      ⟨"replace", 0, 6, 8, [], ['Z'], 1, ['b']⟩
      [['a', 'b', 'c', 'd', 'e', 'f', 'g', 'h', 'i', 'j']] 0
      ['a', 'b'] ['c', 'd'] ['e', 'f'] ['g', 'h'] ['i', 'j']
      rfl rfl (by decide) (by decide) (by decide) (by decide) (by decide) (by decide)
    simpa using h,
   C4_descending_replay.1
      [⟨"replace", 0, 2, 4, [], ['X', 'Y'], 1, ['a']⟩,
       ⟨"replace", 0, 6, 8, [], ['Z'], 1, ['b']⟩]
      [['a', 'b', 'c', 'd', 'e', 'f', 'g', 'h', 'i', 'j']] (by decide)⟩

/-- C10: a non-empty merge only modifies the document lines targeted by some
surviving operation (beyond appending empty lines up to the maximum
referenced line index): every pre-existing line whose index is not the
`line` of a surviving operation is unchanged at its index, and no line is
ever removed (the document never shrinks). -/
theorem C10_frame_property (all : List UpdateObject) (doc : List (List Char)) (i : Nat)
    (hne : all ≠ []) (hi : i < doc.length)
    (hfree : i ∉ (surviving all).map (fun u => u.line)) :
    (merge_and_apply_doc all doc).getD i [] = doc.getD i [] ∧
      doc.length ≤ (merge_and_apply_doc all doc).length := by
  have hlen := merge_and_apply_doc_length all doc hne
  have hne2 : all.isEmpty = false := by
    cases all with
    | nil => exact absurd rfl hne
    | cons a l => rfl
  have hnm : i ∉ ((surviving all).map (fun u => u.line)).dedup :=
    fun hmem => hfree (List.mem_dedup.mp hmem)
  constructor
  · rw [merge_and_apply_doc, hne2]
    simp only [Bool.false_eq_true, if_false]
    have h1 : (replay (surviving all)
          (doc ++ List.replicate (maxLine all + 1 - doc.length) [])).getD i [] =
        (doc ++ List.replicate (maxLine all + 1 - doc.length) []).getD i [] := by
      unfold replay
      exact foldl_set_getD_of_not_mem [] _ _ _ i hnm
    rw [h1]
    exact getD_append_lt [] doc _ i hi
  · rw [hlen]
    omega

/-- C10 witness: a single surviving edit of line 0 leaves line 1 of a two-line
document unchanged and does not shrink the document. -/
theorem C10_frame_property_witness :
    (merge_and_apply_doc [⟨"replace", 0, 0, 1, [], ['Z'], 1, ['u']⟩]
        [['a'], ['b']]).getD 1 [] = [['a'], ['b']].getD 1 [] ∧
      [['a'], ['b']].length ≤
        (merge_and_apply_doc [⟨"replace", 0, 0, 1, [], ['Z'], 1, ['u']⟩]
          [['a'], ['b']]).length :=
  C10_frame_property [⟨"replace", 0, 0, 1, [], ['Z'], 1, ['u']⟩] [['a'], ['b']] 1
    (by decide) (by decide) (by decide)

/-! ### Diff-engine lemmas -/

theorem lcp_le_left : ∀ a b : List Char, lcp a b ≤ a.length := by
  intro a
  induction a with
  | nil => intro b; cases b <;> simp [lcp]
  | cons x xs ih =>
    intro b
    cases b with
    | nil => simp [lcp]
    | cons y ys =>
      simp only [lcp]
      split
      · simpa using ih ys
      · simp

theorem lcp_le_right : ∀ a b : List Char, lcp a b ≤ b.length := by
  intro a
  induction a with
  | nil => intro b; cases b <;> simp [lcp]
  | cons x xs ih =>
    intro b
    cases b with
    | nil => simp [lcp]
    | cons y ys =>
      simp only [lcp]
      split
      · simpa using ih ys
      · simp

theorem take_lcp_eq : ∀ a b : List Char, a.take (lcp a b) = b.take (lcp a b) := by
  intro a
  induction a with
  | nil => intro b; cases b <;> simp [lcp]
  | cons x xs ih =>
    intro b
    cases b with
    | nil => simp [lcp]
    | cons y ys =>
      simp only [lcp]
      split
      · rename_i h
        subst h
        simp [List.take_succ_cons, ih ys]
      · simp

theorem suffixTrim_le_left (p : Nat) (a b : List Char) :
    suffixTrim p a b ≤ a.length - p := by
  unfold suffixTrim
  have := lcp_le_left (a.drop p).reverse (b.drop p).reverse
  simpa using this

theorem suffixTrim_le_right (p : Nat) (a b : List Char) :
    suffixTrim p a b ≤ b.length - p := by
  unfold suffixTrim
  have := lcp_le_right (a.drop p).reverse (b.drop p).reverse
  simpa using this

theorem lcp_le_oldEnd (a b : List Char) : lcp a b ≤ oldEnd a b := by
  unfold oldEnd
  have h1 := suffixTrim_le_left (lcp a b) a b
  have h2 := lcp_le_left a b
  omega

theorem lcp_le_newEnd (a b : List Char) : lcp a b ≤ newEnd a b := by
  unfold newEnd
  have h1 := suffixTrim_le_right (lcp a b) a b
  have h2 := lcp_le_right a b
  omega

theorem oldEnd_le (a b : List Char) : oldEnd a b ≤ a.length := by
  unfold oldEnd
  omega

theorem newEnd_le (a b : List Char) : newEnd a b ≤ b.length := by
  unfold newEnd
  omega

theorem drop_oldEnd_eq_drop_newEnd (a b : List Char) :
    a.drop (oldEnd a b) = b.drop (newEnd a b) := by
  unfold oldEnd newEnd suffixTrim
  set p := lcp a b with hp
  set k := lcp (a.drop p).reverse (b.drop p).reverse with hk
  have hka : k ≤ a.length - p := by
    have := lcp_le_left (a.drop p).reverse (b.drop p).reverse
    simpa [hk] using this
  have hkb : k ≤ b.length - p := by
    have := lcp_le_right (a.drop p).reverse (b.drop p).reverse
    simpa [hk] using this
  have hpa : p ≤ a.length := lcp_le_left a b
  have hpb : p ≤ b.length := lcp_le_right a b
  have e1 : a.drop (a.length - k) = (a.drop p).drop ((a.drop p).length - k) := by
    rw [List.drop_drop]
    congr 1
    rw [List.length_drop]
    omega
  have e2 : b.drop (b.length - k) = (b.drop p).drop ((b.drop p).length - k) := by
    rw [List.drop_drop]
    congr 1
    rw [List.length_drop]
    omega
  rw [e1, e2]
  have hr : ∀ (l : List Char) (n : Nat), l.drop (l.length - n) = l.rtake n :=
    fun l n => rfl
  rw [hr, hr, List.rtake_eq_reverse_take_reverse, List.rtake_eq_reverse_take_reverse,
    hk, take_lcp_eq]

theorem oldPart_eq (a b : List Char) :
    oldPart a b = (a.take (oldEnd a b)).drop (lcp a b) := by
  unfold oldPart
  split
  · rfl
  · rename_i h
    have h1 : lcp a b ≤ oldEnd a b := lcp_le_oldEnd a b
    have h2 : oldEnd a b = lcp a b := by omega
    rw [h2]
    symm
    apply List.drop_eq_nil_of_le
    rw [List.length_take]
    omega

theorem newPart_eq (a b : List Char) :
    newPart a b = (b.take (newEnd a b)).drop (lcp a b) := by
  unfold newPart
  split
  · rfl
  · rename_i h
    have h1 : lcp a b ≤ newEnd a b := lcp_le_newEnd a b
    have h2 : newEnd a b = lcp a b := by omega
    rw [h2]
    symm
    apply List.drop_eq_nil_of_le
    rw [List.length_take]
    omega

theorem oldPart_length (a b : List Char) :
    (oldPart a b).length = oldEnd a b - lcp a b := by
  rw [oldPart_eq, List.length_drop, List.length_take]
  have := oldEnd_le a b
  omega

theorem newPart_length (a b : List Char) :
    (newPart a b).length = newEnd a b - lcp a b := by
  rw [newPart_eq, List.length_drop, List.length_take]
  have := newEnd_le a b
  omega

theorem split3 {α : Type} (l : List α) (p e : Nat) (hpe : p ≤ e) :
    l.take p ++ (l.take e).drop p ++ l.drop e = l := by
  have h1 : (l.take e).take p = l.take p := by
    rw [List.take_take]
    congr 1
    omega
  rw [← h1, List.take_append_drop, List.take_append_drop]

theorem parts_eq_imp_eq (a b : List Char) (h : oldPart a b = newPart a b) : a = b := by
  have hlen : (oldPart a b).length = (newPart a b).length := by rw [h]
  rw [oldPart_length, newPart_length] at hlen
  have h1 : lcp a b ≤ oldEnd a b := lcp_le_oldEnd a b
  have h2 : lcp a b ≤ newEnd a b := lcp_le_newEnd a b
  have hEnd : oldEnd a b = newEnd a b := by omega
  calc a = a.take (lcp a b) ++ (a.take (oldEnd a b)).drop (lcp a b) ++ a.drop (oldEnd a b) :=
        (split3 a (lcp a b) (oldEnd a b) h1).symm
    _ = b.take (lcp a b) ++ (b.take (newEnd a b)).drop (lcp a b) ++ b.drop (newEnd a b) := by
        rw [← oldPart_eq, h, newPart_eq, take_lcp_eq, drop_oldEnd_eq_drop_newEnd]
    _ = b := split3 b (lcp a b) (newEnd a b) h2

theorem splice_reproduces (a b : List Char) :
    a.take (lcp a b) ++ newPart a b ++ a.drop (oldEnd a b) = b := by
  rw [take_lcp_eq, newPart_eq, drop_oldEnd_eq_drop_newEnd]
  exact split3 b (lcp a b) (newEnd a b) (lcp_le_newEnd a b)

theorem mkUpdate_line {i : Nat} {a b u : List Char} {t : Int} {op : UpdateObject}
    (h : mkUpdate i a b u t = some op) : op.line = i := by
  unfold mkUpdate at h
  split at h
  · exact absurd h (by simp)
  · split at h
    · exact absurd h (by simp)
    · injection h with h
      subst h
      rfl

theorem mkUpdate_of_ne {i : Nat} {a b u : List Char} {t : Int}
    (hab : a ≠ b) (hparts : oldPart a b ≠ newPart a b) :
    mkUpdate i a b u t = some
      { op_type := "replace"
        line := i
        start_col := (lcp a b : Int)
        end_col := (max (oldEnd a b) (newEnd a b) : Int)
        old_content := (oldPart a b).take 255
        new_content := (newPart a b).take 255
        ts := t
        user_id := u.take 31 } := by
  simp [mkUpdate, hab, hparts]

theorem filter_line_filterMap (old new : List (List Char)) (u : List Char) (t : Int)
    (i : Nat) :
    ∀ L : List Nat, L.Nodup →
      ((L.filterMap (fun j => mkUpdate j (old.getD j []) (new.getD j []) u t)).filter
          (fun o => o.line == i)) =
        if i ∈ L then (mkUpdate i (old.getD i []) (new.getD i []) u t).toList else [] := by
  intro L
  induction L with
  | nil => intro _; simp
  | cons j tl ih =>
    intro hnd
    rw [List.nodup_cons] at hnd
    obtain ⟨hj, hnd2⟩ := hnd
    rw [List.filterMap_cons]
    cases hgj : mkUpdate j (old.getD j []) (new.getD j []) u t with
    | none =>
      rw [ih hnd2]
      by_cases hij : i = j
      · subst hij
        rw [if_neg hj, if_pos (List.mem_cons_self i tl), hgj]
        rfl
      · simp [List.mem_cons, hij]
    | some v =>
      have hv : v.line = j := mkUpdate_line hgj
      rw [List.filter_cons]
      by_cases hij : i = j
      · subst hij
        rw [if_pos (by simp [hv]), ih hnd2, if_neg hj,
          if_pos (List.mem_cons_self i tl), hgj]
        rfl
      · rw [if_neg (by simp [hv]; exact fun hh => hij hh.symm)]
        rw [ih hnd2]
        simp [List.mem_cons, hij]

theorem differ_lt_max (old new : List (List Char)) (i : Nat)
    (h : old.getD i [] ≠ new.getD i []) : i < max old.length new.length := by
  by_contra hc
  push_neg at hc
  have h1 : old.length ≤ i := by omega
  have h2 : new.length ≤ i := by omega
  exact h (by rw [List.getD_eq_default _ _ h1, List.getD_eq_default _ _ h2])

/-- C3 (amended): for any two line strings at index `i` that differ, the diff
pass emits exactly one operation for that line (the filtered output is a
one-element list); its `old_text` equals `a[p:old_end]` provided that segment
fits the 255-byte cap, and — provided the new segment fits the cap —
replacing `a[p:old_end]` of `a` by the operation's `new_text` reproduces `b`
exactly.  (Without the cap hypotheses the texts are the 255-byte truncations,
see the counterexample.) -/
theorem C3_diff_minimality (old new : List (List Char)) (u : List Char) (t : Int)
    (i : Nat) (hdiff : old.getD i [] ≠ new.getD i []) :
    ∃ op : UpdateObject,
      (detect_changes old new u t).filter (fun o => o.line == i) = [op] ∧
      (oldEnd (old.getD i []) (new.getD i []) - lcp (old.getD i []) (new.getD i []) ≤ 255 →
        op.old_content =
          ((old.getD i []).take (oldEnd (old.getD i []) (new.getD i []))).drop
            (lcp (old.getD i []) (new.getD i []))) ∧
      (newEnd (old.getD i []) (new.getD i []) - lcp (old.getD i []) (new.getD i []) ≤ 255 →
        (old.getD i []).take (lcp (old.getD i []) (new.getD i [])) ++ op.new_content ++
            (old.getD i []).drop (oldEnd (old.getD i []) (new.getD i [])) =
          new.getD i []) := by
  have hparts : oldPart (old.getD i []) (new.getD i []) ≠
      newPart (old.getD i []) (new.getD i []) :=
    fun h => hdiff (parts_eq_imp_eq _ _ h)
  refine ⟨{ op_type := "replace"
            line := i
            start_col := (lcp (old.getD i []) (new.getD i []) : Int)
            end_col := (max (oldEnd (old.getD i []) (new.getD i []))
              (newEnd (old.getD i []) (new.getD i [])) : Int)
            old_content := (oldPart (old.getD i []) (new.getD i [])).take 255
            new_content := (newPart (old.getD i []) (new.getD i [])).take 255
            ts := t
            user_id := u.take 31 }, ?_, ?_, ?_⟩
  · unfold detect_changes
    rw [filter_line_filterMap old new u t i _ (List.nodup_range _),
      if_pos (List.mem_range.mpr (differ_lt_max old new i hdiff)),
      mkUpdate_of_ne hdiff hparts]
    rfl
  · intro h255
    show (oldPart (old.getD i []) (new.getD i [])).take 255 = _
    rw [List.take_of_length_le (by rw [oldPart_length]; omega), oldPart_eq]
  · intro h255
    show (old.getD i []).take (lcp (old.getD i []) (new.getD i [])) ++
        (newPart (old.getD i []) (new.getD i [])).take 255 ++
        (old.getD i []).drop (oldEnd (old.getD i []) (new.getD i [])) = new.getD i []
    rw [show (newPart (old.getD i []) (new.getD i [])).take 255 =
        newPart (old.getD i []) (new.getD i []) from
      List.take_of_length_le (by rw [newPart_length]; omega)]
    exact splice_reproduces _ _

set_option maxRecDepth 4000 in
/-- C3 counterexample to the claim as stated: on a 256-byte differing segment
(`a` = 256 copies of `x`, `b` = `"y"`, so `p = 0`, `old_end = 256`) the
emitted operation's `old_text` is the 255-byte `strncpy` truncation, not
`a[p:old_end]`. -/
theorem C3_diff_truncation_cex :
    Option.map UpdateObject.old_content
        (mkUpdate 0 (List.replicate 256 'x') ['y'] [] 0) ≠
      some (((List.replicate 256 'x').take
          (oldEnd (List.replicate 256 'x') ['y'])).drop
        (lcp (List.replicate 256 'x') ['y'])) := by
  decide

/-- C3 witness: diffing `"ab"` against `"ax"` (`p = 1`, `old_end = new_end = 2`,
segments one byte each) emits exactly one line-0 operation whose `old_text`
is `"b"` and whose `new_text` spliced into `"ab"` gives back `"ax"`. -/
theorem C3_diff_minimality_witness :
    ∃ op : UpdateObject,
      (detect_changes [['a', 'b']] [['a', 'x']] [] 5).filter (fun o => o.line == 0) =
        [op] ∧
      (oldEnd (List.getD [['a', 'b']] 0 []) (List.getD [['a', 'x']] 0 []) -
          lcp (List.getD [['a', 'b']] 0 []) (List.getD [['a', 'x']] 0 []) ≤ 255 →
        op.old_content =
          ((List.getD [['a', 'b']] 0 []).take
              (oldEnd (List.getD [['a', 'b']] 0 []) (List.getD [['a', 'x']] 0 []))).drop
            (lcp (List.getD [['a', 'b']] 0 []) (List.getD [['a', 'x']] 0 []))) ∧
      (newEnd (List.getD [['a', 'b']] 0 []) (List.getD [['a', 'x']] 0 []) -
          lcp (List.getD [['a', 'b']] 0 []) (List.getD [['a', 'x']] 0 []) ≤ 255 →
        (List.getD [['a', 'b']] 0 []).take
            (lcp (List.getD [['a', 'b']] 0 []) (List.getD [['a', 'x']] 0 [])) ++
            op.new_content ++
            (List.getD [['a', 'b']] 0 []).drop
              (oldEnd (List.getD [['a', 'b']] 0 []) (List.getD [['a', 'x']] 0 [])) =
          List.getD [['a', 'x']] 0 []) :=
  C3_diff_minimality [['a', 'b']] [['a', 'x']] [] 5 0 (by decide)

/-- C8: for each line index the diff pass skips equal lines and lines whose
trimmed middle segments coincide, and otherwise emits exactly the operation
`{line = i, range = [p, max(old_end, new_end)), old_text/new_text = the
segments truncated to 255 bytes, logical_time = t, origin = u truncated to
31 bytes by the strncpy into the fixed-size id field}`; in particular
diffing `"Hello World"` against `"Hello Mars"` yields the single operation
`line 0, range [6,11), "World" → "Mars"`. -/
theorem C8_diff_emitted_fields :
    (∀ (i : Nat) (a b u : List Char) (t : Int), a = b → mkUpdate i a b u t = none) ∧
    (∀ (i : Nat) (a b u : List Char) (t : Int), oldPart a b = newPart a b →
        mkUpdate i a b u t = none) ∧
    (∀ (i : Nat) (a b u : List Char) (t : Int), a ≠ b → oldPart a b ≠ newPart a b →
        mkUpdate i a b u t = some
          { op_type := "replace"
            line := i
            start_col := (lcp a b : Int)
            end_col := (max (oldEnd a b) (newEnd a b) : Int)
            old_content := (oldPart a b).take 255
            new_content := (newPart a b).take 255
            ts := t
            user_id := u.take 31 }) ∧
    detect_changes [String.toList "Hello World"] [String.toList "Hello Mars"]
        (String.toList "alice") 100 =
      [{ op_type := "replace"
         line := 0
         start_col := 6
         end_col := 11
         old_content := String.toList "World"
         new_content := String.toList "Mars"
         ts := 100
         user_id := String.toList "alice" }] := by
  refine ⟨?_, ?_, ?_, ?_⟩
  · intro i a b u t h
    simp [mkUpdate, h]
  · intro i a b u t h
    simp [mkUpdate, h]
  · intro i a b u t ha hp
    exact mkUpdate_of_ne ha hp
  · decide

/-- C8 witness: the emission conjunct applied to the concrete differing lines
`"ab"` / `"ax"` (prefix 1, no common suffix past the prefix). -/
theorem C8_diff_emitted_fields_witness :
    mkUpdate 0 ['a', 'b'] ['a', 'x'] ['u'] 5 = some
      { op_type := "replace"
        line := 0
        start_col := (lcp ['a', 'b'] ['a', 'x'] : Int)
        end_col := (max (oldEnd ['a', 'b'] ['a', 'x']) (newEnd ['a', 'b'] ['a', 'x']) : Int)
        old_content := (oldPart ['a', 'b'] ['a', 'x']).take 255
        new_content := (newPart ['a', 'b'] ['a', 'x']).take 255
        ts := 5
        user_id := List.take 31 ['u'] } :=
  C8_diff_emitted_fields.2.2.1 0 ['a', 'b'] ['a', 'x'] ['u'] 5 (by decide) (by decide)
